import Mathlib

/-!
Verification development for the nine-grid image-picker utility (`nine.py`).

The core of the program is the `ImageCache` class (two unbounded
dictionaries: decoded originals keyed by path, thumbnails keyed by
`(path, size)`), the PIL `Image.thumbnail` containment scaling it invokes,
and `NineGridApp.load_options_file` (JSON configuration loading with
all-or-nothing replacement of the option set and a refresh of the nine
grid cells).

Shallow embedding conventions:
* A decoded image is abstracted to its dimensions plus an opaque `data`
  payload that identifies the pixel content (so that "the cached bitmap,
  not a re-decode" is observable).  `Image.convert("RGBA")` and
  `ImageTk.PhotoImage` preserve dimensions and content identity and are
  modelled as the identity.
* The filesystem is a function from paths to `FileState`
  (absent / exists-but-undecodable / decodes to an image); it is passed
  explicitly where the Python code performs I/O.
* Python dictionaries are association lists: `dlookup` is `dict.get`
  (first entry wins, and insertion functions keep at most one entry per
  key), `dictInsert` is `d[k] = v` (overwrite in place, else append),
  exactly the observable semantics of `dict`.
* PIL's float arithmetic in `Image.thumbnail` (Pillow ≥ 7 algorithm) is
  modelled exactly over `ℚ`.
-/

namespace NineTool

/-- A decoded raster image: its pixel dimensions plus an opaque payload
identifying the pixel content. -/
structure Img where
  width : Nat
  height : Nat
  data : Nat
deriving DecidableEq, Repr

/-- What the filesystem holds at a path: nothing, a file PIL cannot decode,
or a file decoding to an image. -/
inductive FileState where
  | absent : FileState
  | corrupt : FileState
  | image : Img → FileState
deriving DecidableEq, Repr

/-- The filesystem, as seen through `os.path.exists` and `Image.open`. -/
def FS : Type := String → FileState

/-- `dict.get k` on an association list (Python dict lookup; returns
`none` when the key is missing, as `dict.get` returns `None`). -/
def dlookup {α β : Type} [DecidableEq α] (k : α) : List (α × β) → Option β
  | [] => none
  | (a, b) :: rest => if a = k then some b else dlookup k rest

/-- `d[k] = v` on an association list holding at most one entry per key:
overwrite in place when present, append otherwise (Python dict update,
preserving insertion order). -/
def dictInsert {α β : Type} [DecidableEq α] (d : List (α × β)) (k : α) (v : β) :
    List (α × β) :=
  if d.any (fun p => p.1 = k) then
    d.map (fun p => if p.1 = k then (k, v) else p)
  else
    d ++ [(k, v)]

/-- `max(min(math.floor(number), math.ceil(number), key=key), 1)` from PIL's
`Image.thumbnail` (`round_aspect`): Python's binary `min` with a key returns
the first argument on ties. -/
def round_aspect (number : ℚ) (key : Nat → ℚ) : Nat :=
  max (if key (Nat.floor number) ≤ key (Nat.ceil number) then Nat.floor number
       else Nat.ceil number) 1

/-- PIL `Image.thumbnail(size)` (Pillow ≥ 7 algorithm), on dimensions:
if the image already fits the box, do nothing; otherwise keep one target
dimension and round the other to preserve `aspect = width / height`,
choosing between floor and ceil by which yields the nearer ratio.  The
real-number arithmetic of the source is modelled exactly over `ℚ`.  The
pixel payload is preserved: resampling does not change which original the
pixels come from. -/
def Img.thumbnail (im : Img) (size : Nat × Nat) : Img :=
  let x := size.1
  let y := size.2
  if x ≥ im.width ∧ y ≥ im.height then im
  else
    let aspect : ℚ := (im.width : ℚ) / (im.height : ℚ)
    if (x : ℚ) / (y : ℚ) ≥ aspect then
      { im with
        width := round_aspect ((y : ℚ) * aspect) (fun n => |aspect - (n : ℚ) / (y : ℚ)|),
        height := y }
    else
      { im with
        width := x,
        height := round_aspect ((x : ℚ) / aspect)
          (fun n => if n = 0 then 0 else |aspect - (x : ℚ) / (n : ℚ)|) }

/-- A thumbnail-cache key.  The Python key is the string
`f"{path}|{size}"` when a size is given and `f"{path}|orig"` otherwise;
since `str(size)` of an int pair and `"orig"` contain no `"|"`, that
string determines `(path, size)` uniquely, so the key is modelled as the
pair itself. -/
def ThumbKey : Type := String × Option (Nat × Nat)

instance : DecidableEq ThumbKey := by
  unfold ThumbKey
  infer_instance

/-- The two unbounded caches of `ImageCache.__init__`. -/
structure ImageCache where
  _orig_cache : List (String × Img)
  _thumb_cache : List (ThumbKey × Img)
deriving DecidableEq

/-- A freshly constructed `ImageCache()`: both caches empty. -/
def ImageCache.init : ImageCache := ⟨[], []⟩

/-- `ImageCache._load_orig(path)`: empty or nonexistent path gives `None`;
then the original cache is consulted; on a miss the file is decoded and
cached on success, while a decode failure returns `None` and caches
nothing. -/
def ImageCache._load_orig (c : ImageCache) (fs : FS) (path : String) :
    Option Img × ImageCache :=
  if path = "" ∨ fs path = FileState.absent then (none, c)
  else
    match dlookup path c._orig_cache with
    | some img => (some img, c)
    | none =>
      match fs path with
      | FileState.image img =>
          (some img, { c with _orig_cache := (path, img) :: c._orig_cache })
      | _ => (none, c)

/-- Lines 50–52 of `ImageCache.get`: a working copy of the decoded
original, scaled in place by `Image.thumbnail` when a size was supplied
(`img = orig.copy(); if size: img.thumbnail(size, Image.LANCZOS)`). -/
def applySize (orig : Img) : Option (Nat × Nat) → Img
  | some sz => orig.thumbnail sz
  | none => orig

/-- `ImageCache.get(path, size)`: load the original (possibly from cache);
on success consult the thumbnail cache under the `(path, size)` key; on a
miss, scale a copy of the original with `Image.thumbnail` when a size is
given, store the result in the thumbnail cache and return it. -/
def ImageCache.get (c : ImageCache) (fs : FS) (path : String)
    (size : Option (Nat × Nat)) : Option Img × ImageCache :=
  match c._load_orig fs path with
  | (none, c1) => (none, c1)
  | (some orig, c1) =>
    match dlookup ((path, size) : ThumbKey) c1._thumb_cache with
    | some thumb => (some thumb, c1)
    | none =>
      let img := applySize orig size
      (some img, { c1 with _thumb_cache := (((path, size) : ThumbKey), img) :: c1._thumb_cache })

/-- Cache coherence: every thumbnail-cache entry records, for its
`(path, size)` key, exactly the `applySize`-image of an original that is
present in the original-decode cache under that path. -/
def Inv (c : ImageCache) : Prop :=
  ∀ (p : String) (sz : Option (Nat × Nat)) (t : Img),
    dlookup ((p, sz) : ThumbKey) c._thumb_cache = some t →
      ∃ o, dlookup p c._orig_cache = some o ∧ t = applySize o sz

/-- One observable request against the shared `ImageCache`: a call to
`get` with the filesystem as it happens to be at that moment (the file
may have been replaced or deleted between requests). -/
structure Op where
  fs : FS
  path : String
  size : Option (Nat × Nat)

/-- Effect of one request on the cache state. -/
def stepOp (c : ImageCache) (op : Op) : ImageCache :=
  (c.get op.fs op.path op.size).2

/-- Effect of a whole sequence of requests on the cache state. -/
def runOps (c : ImageCache) (ops : List Op) : ImageCache :=
  ops.foldl stepOp c

/-! ### Concrete fixtures used by witnesses and counterexamples -/

/-- A decodable 100×100 image, smaller than the 220×220 cell box. -/
def imgSmall : Img := ⟨100, 100, 0⟩

/-- A decodable 440×220 image, wider than the 220×220 cell box. -/
def imgWide : Img := ⟨440, 220, 3⟩

/-- What `Image.thumbnail((220, 220))` makes of `imgWide`. -/
def imgWideThumb : Img := ⟨220, 110, 3⟩

/-- A filesystem holding only `a.png`, decoding to `imgSmall`. -/
def fsSmall : FS :=
  fun p => if p = "a.png" then FileState.image imgSmall else FileState.absent

/-- The same filesystem after the contents of `a.png` were replaced. -/
def fsSmallChanged : FS :=
  fun p => if p = "a.png" then FileState.image ⟨100, 100, 99⟩ else FileState.absent

/-- A filesystem holding only `w.png`, decoding to `imgWide`. -/
def fsWide : FS :=
  fun p => if p = "w.png" then FileState.image imgWide else FileState.absent

/-- A filesystem holding only a `broken.png` that exists but fails to
decode. -/
def fsCorrupt : FS :=
  fun p => if p = "broken.png" then FileState.corrupt else FileState.absent

/-- An empty filesystem. -/
def fsNone : FS := fun _ => FileState.absent

/-- The cache state reached by requesting `w.png` at 220×220 once. -/
def cacheWide : ImageCache :=
  ⟨[("w.png", imgWide)], [(("w.png", some (220, 220)), imgWideThumb)]⟩

/-- A cache state already holding a decoded original and a thumbnail for
`a.png`; it is exactly the state a fresh cache reaches after one 220×220
request for `a.png` against `fsSmall`. -/
def cachePre : ImageCache :=
  ⟨[("a.png", imgSmall)], [(("a.png", some (220, 220)), imgSmall)]⟩

/-- A second small decodable image. -/
def imgB : Img := ⟨64, 64, 7⟩

/-- A filesystem holding only `b.png`, decoding to `imgB`. -/
def fsB : FS :=
  fun p => if p = "b.png" then FileState.image imgB else FileState.absent

/-- An interleaved request for a different file. -/
def opB : Op := ⟨fsB, "b.png", some (220, 220)⟩

/-! ### The options layer: JSON values, schema coercion, grid refresh

JSON booleans and floating-point numbers are not modelled: no claim
involves them (the configuration schema uses integers and strings). -/

/-- A parsed JSON value as `json.load` yields it (`None`, int, str, list,
object). -/
inductive JVal where
  | jnull : JVal
  | jint : Int → JVal
  | jstr : String → JVal
  | jarr : List JVal → JVal
  | jobj : List (String × JVal) → JVal

/-- Python `int(v)`: succeeds on an int and on a string holding an integer
literal (string parsing approximated by `String.toInt?`); raises — here
`none` — on `None`, lists and objects. -/
def pyInt : JVal → Option Int
  | JVal.jint n => some n
  | JVal.jstr s => s.toInt?
  | _ => none

/-- Python `str(v)`: total; `str(None)` is the four-character string
`"None"`.  The exact rendering of lists and objects is irrelevant to every
claim and abbreviated. -/
def pyStr : JVal → String
  | JVal.jnull => "None"
  | JVal.jint n => toString n
  | JVal.jstr s => s
  | JVal.jarr _ => "<list>"
  | JVal.jobj _ => "<dict>"

/-- Python iteration `for item in raw`: a list yields its elements, a
string yields its characters as 1-character strings, a dict yields its
keys; ints and `None` raise `TypeError` (`none`). -/
def pyIter : JVal → Option (List JVal)
  | JVal.jarr items => some items
  | JVal.jstr s => some (s.data.map (fun ch => JVal.jstr (String.mk [ch])))
  | JVal.jobj fields => some (fields.map (fun f => JVal.jstr f.1))
  | _ => none

/-- `item.get(k)` on a parsed JSON object: the stored value, or `None`
when the key is missing. -/
def jget (fields : List (String × JVal)) (k : String) : JVal :=
  (dlookup k fields).getD JVal.jnull

/-- The `Option` dataclass of the source (`id`, `name`, `image_path`);
named `OptionRec` here because `Option` is taken in Lean. -/
structure OptionRec where
  id : Int
  name : String
  image_path : String
deriving DecidableEq, Repr

/-- One loop iteration of `load_options_file`'s coercion:
`Option(id=int(item.get("id")), name=str(item.get("name")),
image_path=str(item.get("image")))`.  Fails (`none`) when the item is not
an object (`item.get` raises `AttributeError`) or when `int` raises on the
id; `str` never raises, so missing `name`/`image` coerce to `"None"`. -/
def coerceItem : JVal → Option OptionRec
  | JVal.jobj fields =>
    match pyInt (jget fields "id") with
    | some n => some ⟨n, pyStr (jget fields "name"), pyStr (jget fields "image")⟩
    | none => none
  | _ => none

/-- The `for item in raw: options.append(...)` loop, which aborts on the
first item whose coercion raises. -/
def coerceItems : List JVal → Option (List OptionRec)
  | [] => some []
  | item :: rest =>
    match coerceItem item with
    | none => none
    | some o =>
      match coerceItems rest with
      | none => none
      | some os => some (o :: os)

/-- The whole coercion phase over `raw`: iterate (failing when `raw` is
not iterable) and coerce every item, aborting on the first failure. -/
def coerceAll (raw : JVal) : Option (List OptionRec) :=
  match pyIter raw with
  | some items => coerceItems items
  | none => none

/-- One grid cell, as the claims observe it: the selector variable
(`name_var`), the displayed image reference (`img_label.image`; `none`
models the cleared label), and the selector's value list. -/
structure Cell where
  name_var : String
  image : Option Img
  combo_values : List String
deriving DecidableEq, Repr

/-- The application state touched by `load_options_file`. -/
structure AppState where
  options : List OptionRec
  option_names : List String
  name_to_option : List (String × OptionRec)
  cells : List Cell
  status_var : String
deriving DecidableEq, Repr

/-- Fixed cell box width in pixels. -/
def CELL_WIDTH : Nat := 220

/-- Fixed cell box height in pixels. -/
def CELL_HEIGHT : Nat := 220

/-- `{o.name: o for o in options}`: a dict comprehension, so a duplicate
name overwrites — the last option with a given name wins. -/
def buildIndex (options : List OptionRec) : List (String × OptionRec) :=
  options.foldl (fun d o => dictInsert d o.name o) []

/-- `NineGridApp._refresh_cell_image(cell)`: look the cell's current name
up in the index; when absent, clear the displayed image
(`image=tk_img if tk_img else ""`); when present, request the 220×220
thumbnail and display it (clearing when the cache returns `None`). -/
def _refresh_cell_image (fs : FS) (n2o : List (String × OptionRec))
    (cell : Cell) (c : ImageCache) : Cell × ImageCache :=
  match dlookup cell.name_var n2o with
  | some opt =>
    let r := c.get fs opt.image_path (some (CELL_WIDTH, CELL_HEIGHT))
    ({ cell with image := r.1 }, r.2)
  | none => ({ cell with image := none }, c)

/-- The per-cell body of the loop in `load_options_file` (lines 175–181):
push the new name list into the selector, clear the selection when it is
no longer a valid name, then refresh the cell's image. -/
def updateCellOnLoad (fs : FS) (n2o : List (String × OptionRec))
    (names : List String) (cell : Cell) (c : ImageCache) : Cell × ImageCache :=
  let cell1 : Cell := { cell with combo_values := names }
  let cell2 : Cell :=
    if cell1.name_var ∈ names then cell1 else { cell1 with name_var := "" }
  _refresh_cell_image fs n2o cell2 c

/-- The loop over all cells, threading the image cache through. -/
def updateCellsOnLoad (fs : FS) (n2o : List (String × OptionRec))
    (names : List String) : List Cell → ImageCache → List Cell × ImageCache
  | [], c => ([], c)
  | cell :: rest, c =>
    let r1 := updateCellOnLoad fs n2o names cell c
    let r2 := updateCellsOnLoad fs n2o names rest r1.2
    (r1.1 :: r2.1, r2.2)

/-- The configuration file as the two-stage read in `load_options_file`
sees it: unreadable (`open` raised), unparsable (`json.load` raised), or
parsed into a JSON value. -/
inductive CfgFile where
  | unreadable : CfgFile
  | unparsable : CfgFile
  | parsed : JVal → CfgFile

/-- The two modal error dialogs `load_options_file` can show:
"Load Options Failed" for a read/parse failure, "Invalid Options Format"
for a schema-coercion failure. -/
inductive LoadError where
  | read_failed : LoadError
  | invalid_format : LoadError
deriving DecidableEq, Repr

/-- `os.path.basename` on POSIX paths: the part after the last slash. -/
def basename (s : String) : String := (s.splitOn "/").getLastD ""

/-- `NineGridApp.load_options_file(path)`: a read or parse failure shows
the first dialog and returns with nothing changed; a coercion failure
shows the second dialog and returns with nothing changed; on success the
option list, the name list and the name→option index are replaced
wholesale, every cell is updated (selector values, invalid selections
cleared, image refreshed) and the status line reports the load.  The
returned `Option LoadError` models which dialog, if any, was shown. -/
def load_options_file (cfg : CfgFile) (fs : FS) (path : String)
    (app : AppState) (c : ImageCache) : AppState × ImageCache × Option LoadError :=
  match cfg with
  | CfgFile.unreadable => (app, c, some LoadError.read_failed)
  | CfgFile.unparsable => (app, c, some LoadError.read_failed)
  | CfgFile.parsed raw =>
    match coerceAll raw with
    | none => (app, c, some LoadError.invalid_format)
    | some options =>
      let option_names := options.map (fun o => o.name)
      let n2o := buildIndex options
      let r := updateCellsOnLoad fs n2o option_names app.cells c
      ({ options := options, option_names := option_names,
         name_to_option := n2o, cells := r.1,
         status_var := "已載入選項：" ++ basename path }, r.2, none)

/-! ### Fixtures for the options-layer claims -/

/-- An application state with no cells and nothing loaded. -/
def app0 : AppState :=
  { options := [], option_names := [], name_to_option := [], cells := [],
    status_var := "就緒。" }

/-- A parsed configuration whose single element has an integer id and an
image but no name. -/
def cfgMissingName : CfgFile :=
  CfgFile.parsed (JVal.jarr [JVal.jobj [("id", JVal.jint 1), ("image", JVal.jstr "x.png")]])

/-- Two options sharing the name `"X"`. -/
def itemsDup : List JVal :=
  [JVal.jobj [("id", JVal.jint 1), ("name", JVal.jstr "X"), ("image", JVal.jstr "a.png")],
   JVal.jobj [("id", JVal.jint 2), ("name", JVal.jstr "X"), ("image", JVal.jstr "b.png")]]

/-- The coerced duplicate-name options. -/
def optsDup : List OptionRec := [⟨1, "X", "a.png"⟩, ⟨2, "X", "b.png"⟩]

/-- An image displayed before a reload. -/
def imgA : Img := ⟨256, 256, 11⟩

/-- An application state with one cell showing option `A`'s image. -/
def app9 : AppState :=
  { options := [⟨1, "A", "a.png"⟩], option_names := ["A"],
    name_to_option := [("A", ⟨1, "A", "a.png"⟩)],
    cells := [{ name_var := "A", image := some imgA, combo_values := ["A"] }],
    status_var := "" }

/-- A parsed configuration replacing the option set with a single option
`B`, so the selection `A` becomes invalid. -/
def cfg9 : CfgFile :=
  CfgFile.parsed (JVal.jarr
    [JVal.jobj [("id", JVal.jint 2), ("name", JVal.jstr "B"), ("image", JVal.jstr "b.png")]])

/-! ### Basic facts about `_load_orig` and `get` -/

theorem dlookup_cons {α β : Type} [DecidableEq α] (a k : α) (b : β) (l : List (α × β)) :
    dlookup k ((a, b) :: l) = if a = k then some b else dlookup k l := rfl

/-- A failed original load leaves the cache untouched. -/
theorem load_orig_none_frame (c : ImageCache) (fs : FS) (path : String)
    (h : (c._load_orig fs path).1 = none) : (c._load_orig fs path).2 = c := by
  unfold ImageCache._load_orig at h ⊢
  by_cases h0 : path = "" ∨ fs path = FileState.absent
  · simp [h0]
  · simp only [if_neg h0] at h ⊢
    cases hl : dlookup path c._orig_cache with
    | some img => simp [hl]
    | none =>
      simp only [hl] at h ⊢
      cases hf : fs path with
      | absent => simp [hf]
      | corrupt => simp [hf]
      | image img => simp [hf] at h

/-- A successful original load leaves the decoded image retrievable from
the original cache of the resulting state. -/
theorem load_orig_lookup (c : ImageCache) (fs : FS) (path : String) (o : Img)
    (c1 : ImageCache) (h : c._load_orig fs path = (some o, c1)) :
    dlookup path c1._orig_cache = some o := by
  unfold ImageCache._load_orig at h
  by_cases h0 : path = "" ∨ fs path = FileState.absent
  · simp [h0] at h
  · simp only [if_neg h0] at h
    cases hl : dlookup path c._orig_cache with
    | some img =>
      simp only [hl] at h
      obtain ⟨ho, hc⟩ := Prod.mk.injEq .. ▸ h
      subst hc
      rw [hl, ho]
    | none =>
      simp only [hl] at h
      cases hf : fs path with
      | absent => simp [hf] at h
      | corrupt => simp [hf] at h
      | image img =>
        simp only [hf] at h
        obtain ⟨ho, hc⟩ := Prod.mk.injEq .. ▸ h
        subst hc
        simp [dlookup]
        exact Option.some_inj.mp ho

/-- A successful original load means the path was nonempty and present. -/
theorem load_orig_some_path (c : ImageCache) (fs : FS) (path : String) (o : Img)
    (c1 : ImageCache) (h : c._load_orig fs path = (some o, c1)) :
    path ≠ "" ∧ fs path ≠ FileState.absent := by
  unfold ImageCache._load_orig at h
  by_cases h0 : path = "" ∨ fs path = FileState.absent
  · simp [h0] at h
  · exact ⟨fun he => h0 (Or.inl he), fun he => h0 (Or.inr he)⟩

/-- If the path is cached in the original cache, `_load_orig` returns the
cached image and does not touch the state (provided the file exists). -/
theorem load_orig_cached (c : ImageCache) (fs : FS) (path : String) (o : Img)
    (hp : path ≠ "") (hfs : fs path ≠ FileState.absent)
    (hl : dlookup path c._orig_cache = some o) :
    c._load_orig fs path = (some o, c) := by
  unfold ImageCache._load_orig
  rw [if_neg (by tauto), hl]

/-- `_load_orig` never changes the thumbnail cache. -/
theorem load_orig_thumb_frame (c : ImageCache) (fs : FS) (path : String) :
    ((c._load_orig fs path).2)._thumb_cache = c._thumb_cache := by
  unfold ImageCache._load_orig
  by_cases h0 : path = "" ∨ fs path = FileState.absent
  · simp [h0]
  · simp only [if_neg h0]
    cases hl : dlookup path c._orig_cache with
    | some img => simp
    | none => cases hf : fs path <;> simp

/-- `_load_orig` preserves every existing original-cache entry. -/
theorem load_orig_mono (c : ImageCache) (fs : FS) (path : String)
    (k : String) (v : Img) (h : dlookup k c._orig_cache = some v) :
    dlookup k ((c._load_orig fs path).2)._orig_cache = some v := by
  unfold ImageCache._load_orig
  by_cases h0 : path = "" ∨ fs path = FileState.absent
  · simpa [h0] using h
  · simp only [if_neg h0]
    cases hl : dlookup path c._orig_cache with
    | some img => simpa using h
    | none =>
      cases hf : fs path with
      | absent => simpa using h
      | corrupt => simpa using h
      | image img =>
        simp only [dlookup_cons]
        have hne : path ≠ k := fun he => by rw [he, h] at hl; exact Option.noConfusion hl
        rw [if_neg hne]
        exact h

/-- A request that returns `None` leaves the cache state untouched, so the
next request for the same path starts from scratch. -/
theorem get_none_frame (c : ImageCache) (fs : FS) (path : String)
    (size : Option (Nat × Nat)) (h : (c.get fs path size).1 = none) :
    (c.get fs path size).2 = c := by
  unfold ImageCache.get at h ⊢
  cases hl : c._load_orig fs path with
  | mk oi c1 =>
    cases oi with
    | none =>
      simp only [hl]
      have := load_orig_none_frame c fs path (by rw [hl])
      rw [hl] at this
      exact this
    | some orig =>
      simp only [hl] at h
      cases ht : dlookup ((path, size) : ThumbKey) c1._thumb_cache with
      | some thumb => simp [ht] at h
      | none => simp [ht] at h

/-- Anatomy of a successful `get`: the path was nonempty, the decoded
original is in the original cache of the final state, and the returned
bitmap is in the thumbnail cache of the final state under the
`(path, size)` key. -/
theorem get_some_facts (c : ImageCache) (fs : FS) (path : String)
    (size : Option (Nat × Nat)) (bmp : Img) (c' : ImageCache)
    (h : c.get fs path size = (some bmp, c')) :
    path ≠ "" ∧
      dlookup ((path, size) : ThumbKey) c'._thumb_cache = some bmp ∧
      ∃ o, dlookup path c'._orig_cache = some o := by
  unfold ImageCache.get at h
  cases hl : c._load_orig fs path with
  | mk oi c1 =>
    rw [hl] at h
    cases oi with
    | none => simp at h
    | some orig =>
      have hpath := (load_orig_some_path c fs path orig c1 hl).1
      have horig := load_orig_lookup c fs path orig c1 hl
      cases ht : dlookup ((path, size) : ThumbKey) c1._thumb_cache with
      | some thumb =>
        simp only [ht] at h
        obtain ⟨hb, hc⟩ := Prod.mk.injEq .. ▸ h
        subst hc
        refine ⟨hpath, ?_, orig, horig⟩
        rw [ht, hb]
      | none =>
        simp only [ht] at h
        obtain ⟨hb, hc⟩ := Prod.mk.injEq .. ▸ h
        subst hc
        refine ⟨hpath, ?_, orig, horig⟩
        simp [dlookup, Option.some_inj.mp hb]

/-- Under the cache-coherence invariant, a successful `get` returns
exactly the `applySize`-image of the original that `_load_orig` yields. -/
theorem get_bmp_eq (c : ImageCache) (fs : FS) (path : String)
    (size : Option (Nat × Nat)) (bmp : Img) (c' : ImageCache)
    (hInv : Inv c) (h : c.get fs path size = (some bmp, c')) :
    ∃ o, (c._load_orig fs path).1 = some o ∧ bmp = applySize o size := by
  unfold ImageCache.get at h
  cases hl : c._load_orig fs path with
  | mk oi c1 =>
    rw [hl] at h
    cases oi with
    | none => simp at h
    | some orig =>
      refine ⟨orig, rfl, ?_⟩
      cases ht : dlookup ((path, size) : ThumbKey) c1._thumb_cache with
      | some thumb =>
        simp only [ht] at h
        obtain ⟨hb, hc⟩ := Prod.mk.injEq .. ▸ h
        have hthumb : dlookup ((path, size) : ThumbKey) c._thumb_cache = some thumb := by
          have := load_orig_thumb_frame c fs path
          rw [hl] at this
          rw [← this]
          exact ht
        obtain ⟨o2, ho2, hto2⟩ := hInv path size thumb hthumb
        have hre : c._load_orig fs path = (some o2, c) :=
          load_orig_cached c fs path o2 (load_orig_some_path c fs path orig c1 hl).1
            (load_orig_some_path c fs path orig c1 hl).2 ho2
        rw [hl] at hre
        obtain ⟨ho, -⟩ := Prod.mk.injEq .. ▸ hre
        rw [← Option.some_inj.mp hb, hto2, Option.some_inj.mp ho]
      | none =>
        simp only [ht] at h
        obtain ⟨hb, -⟩ := Prod.mk.injEq .. ▸ h
        exact (Option.some_inj.mp hb).symm

/-- A `get` request preserves every existing thumbnail-cache entry. -/
theorem get_mono_thumb (c : ImageCache) (fs : FS) (path : String)
    (size : Option (Nat × Nat)) (k : ThumbKey) (v : Img)
    (h : dlookup k c._thumb_cache = some v) :
    dlookup k ((c.get fs path size).2)._thumb_cache = some v := by
  unfold ImageCache.get
  cases hl : c._load_orig fs path with
  | mk oi c1 =>
    have hc1 : dlookup k c1._thumb_cache = some v := by
      have := load_orig_thumb_frame c fs path
      rw [hl] at this
      rw [this]
      exact h
    cases oi with
    | none => simpa using hc1
    | some orig =>
      cases ht : dlookup ((path, size) : ThumbKey) c1._thumb_cache with
      | some thumb => simpa [ht] using hc1
      | none =>
        simp only [ht, dlookup_cons]
        have hne : ((path, size) : ThumbKey) ≠ k := fun he => by
          rw [he, hc1] at ht; exact Option.noConfusion ht
        rw [if_neg hne]
        exact hc1

/-- A `get` request preserves every existing original-cache entry. -/
theorem get_mono_orig (c : ImageCache) (fs : FS) (path : String)
    (size : Option (Nat × Nat)) (k : String) (v : Img)
    (h : dlookup k c._orig_cache = some v) :
    dlookup k ((c.get fs path size).2)._orig_cache = some v := by
  unfold ImageCache.get
  cases hl : c._load_orig fs path with
  | mk oi c1 =>
    have hc1 : dlookup k c1._orig_cache = some v := by
      have := load_orig_mono c fs path k v h
      rw [hl] at this
      exact this
    cases oi with
    | none => simpa using hc1
    | some orig =>
      cases ht : dlookup ((path, size) : ThumbKey) c1._thumb_cache with
      | some thumb => simpa [ht] using hc1
      | none => simpa [ht] using hc1

/-- Both kinds of cache entries survive any sequence of later requests. -/
theorem runOps_mono (c : ImageCache) (ops : List Op) :
    (∀ (k : ThumbKey) (v : Img), dlookup k c._thumb_cache = some v →
      dlookup k (runOps c ops)._thumb_cache = some v) ∧
    (∀ (k : String) (v : Img), dlookup k c._orig_cache = some v →
      dlookup k (runOps c ops)._orig_cache = some v) := by
  induction ops generalizing c with
  | nil => exact ⟨fun k v h => h, fun k v h => h⟩
  | cons op rest ih =>
    refine ⟨fun k v h => ?_, fun k v h => ?_⟩
    · exact (ih (stepOp c op)).1 k v (get_mono_thumb c op.fs op.path op.size k v h)
    · exact (ih (stepOp c op)).2 k v (get_mono_orig c op.fs op.path op.size k v h)

/-- A fresh cache satisfies the coherence invariant. -/
theorem Inv_init : Inv ImageCache.init := by
  intro p sz t h
  simp [ImageCache.init, dlookup] at h

/-- `_load_orig` preserves the coherence invariant. -/
theorem Inv_load_orig (c : ImageCache) (fs : FS) (path : String) (h : Inv c) :
    Inv (c._load_orig fs path).2 := by
  intro p sz t ht
  rw [load_orig_thumb_frame] at ht
  obtain ⟨o, ho, hto⟩ := h p sz t ht
  exact ⟨o, load_orig_mono c fs path p o ho, hto⟩

/-- `get` preserves the coherence invariant. -/
theorem Inv_get (c : ImageCache) (fs : FS) (path : String)
    (size : Option (Nat × Nat)) (h : Inv c) : Inv (c.get fs path size).2 := by
  unfold ImageCache.get
  cases hl : c._load_orig fs path with
  | mk oi c1 =>
    have hInvc1 : Inv c1 := by
      have := Inv_load_orig c fs path h
      rw [hl] at this
      exact this
    cases oi with
    | none => simpa using hInvc1
    | some orig =>
      cases ht : dlookup ((path, size) : ThumbKey) c1._thumb_cache with
      | some thumb => simpa [ht] using hInvc1
      | none =>
        simp only [ht]
        intro p sz t htt
        rw [dlookup_cons] at htt
        by_cases he : ((path, size) : ThumbKey) = (p, sz)
        · rw [if_pos he] at htt
          have hp : path = p := congrArg Prod.fst he
          have hsz : size = sz := congrArg Prod.snd he
          subst hp
          subst hsz
          exact ⟨orig, load_orig_lookup c fs path orig c1 hl,
            (Option.some_inj.mp htt).symm⟩
        · rw [if_neg he] at htt
          exact hInvc1 p sz t htt

/-- The coherence invariant holds after any sequence of requests. -/
theorem Inv_runOps (c : ImageCache) (ops : List Op) (h : Inv c) :
    Inv (runOps c ops) := by
  induction ops generalizing c with
  | nil => exact h
  | cons op rest ih => exact ih (stepOp c op) (Inv_get c op.fs op.path op.size h)

/-! ### Claims C1, C4, C5, C10 -/

/-- **C4.** For every empty path and every path not resolving to an
existing file, `ImageCache.get` and the underlying `_load_orig` return
absent (`None`) and raise no error, regardless of whether a size is
supplied; the same collapse to absent holds when the file exists but
decoding fails (decoding is attempted exactly when the original cache has
no entry for the path).  In all these cases the cache state is untouched. -/
theorem C4_missing_or_undecodable_is_none (c : ImageCache) (fs : FS)
    (path : String) (size : Option (Nat × Nat))
    (h : path = "" ∨ fs path = FileState.absent ∨
      (fs path = FileState.corrupt ∧ dlookup path c._orig_cache = none)) :
    c._load_orig fs path = (none, c) ∧ c.get fs path size = (none, c) := by
  have hl : c._load_orig fs path = (none, c) := by
    unfold ImageCache._load_orig
    rcases h with h | h | ⟨h1, h2⟩
    · simp [h]
    · simp [h]
    · by_cases h0 : path = "" ∨ fs path = FileState.absent
      · simp [h0]
      · simp [if_neg h0, h1, h2]
  refine ⟨hl, ?_⟩
  unfold ImageCache.get
  rw [hl]

/-- Witness for C4: a nonexistent path with a size, and an existing but
undecodable file without a size, both collapse to `None` on a fresh
cache. -/
theorem C4_witness :
    (ImageCache.init._load_orig fsNone "missing.png" = (none, ImageCache.init) ∧
      ImageCache.init.get fsNone "missing.png" (some (220, 220)) =
        (none, ImageCache.init)) ∧
    (ImageCache.init._load_orig fsCorrupt "broken.png" = (none, ImageCache.init) ∧
      ImageCache.init.get fsCorrupt "broken.png" none = (none, ImageCache.init)) :=
  ⟨C4_missing_or_undecodable_is_none ImageCache.init fsNone "missing.png"
      (some (220, 220)) (Or.inr (Or.inl (by decide))),
   C4_missing_or_undecodable_is_none ImageCache.init fsCorrupt "broken.png"
      none (Or.inr (Or.inr ⟨by decide, by decide⟩))⟩

/-- **C10.** `ImageCache.get` re-checks file existence (via `_load_orig`)
before consulting the original-decode cache, so a call made after the file
has been deleted returns absent — even when a decoded original and
thumbnails for that path are already cached — and changes nothing. -/
theorem C10_deleted_file_is_none (c : ImageCache) (fs : FS) (path : String)
    (size : Option (Nat × Nat)) (h : fs path = FileState.absent) :
    c.get fs path size = (none, c) := by
  have hl : c._load_orig fs path = (none, c) := by
    unfold ImageCache._load_orig
    simp [h]
  unfold ImageCache.get
  rw [hl]

/-- Witness for C10: the original and a 220×220 thumbnail of `a.png` are
already cached, the file is gone, and the request still returns `None`. -/
theorem C10_witness :
    cachePre.get fsNone "a.png" (some (220, 220)) = (none, cachePre) :=
  C10_deleted_file_is_none cachePre fsNone "a.png" (some (220, 220)) (by decide)

/-- **C5.** After every sequence of `ImageCache` operations on a fresh
cache, a thumbnail-cache entry for a path exists only if a successful
original decode for that path occurred and was stored in the
original-decode map (and the entry is the scaled copy of that stored
original); and a failed request stores nothing in either map — the state
is unchanged — so the decode is re-attempted on the next request for that
path. -/
theorem C5_cache_invariant :
    (∀ ops : List Op, Inv (runOps ImageCache.init ops)) ∧
    (∀ (c : ImageCache) (fs : FS) (path : String) (size : Option (Nat × Nat)),
      (c.get fs path size).1 = none → (c.get fs path size).2 = c) :=
  ⟨fun ops => Inv_runOps ImageCache.init ops Inv_init,
   fun c fs path size h => get_none_frame c fs path size h⟩

/-- Witness for C5 at a concrete failed request. -/
theorem C5_witness :
    (ImageCache.init.get fsNone "x.png" none).2 = ImageCache.init :=
  C5_cache_invariant.2 ImageCache.init fsNone "x.png" none (by decide)

/-- **C1.** Once a `(path, size)` request has returned a bitmap, every
later request with the identical path and size — after any interleaved
sequence of other cache requests, and whatever the file now contains, as
long as the path still exists — returns the very bitmap stored in the
thumbnail cache by the first call, without decoding the file again; in
particular a change to the file's contents after the first call is not
reflected in the result while the cache lives. -/
theorem C1_repeated_get_is_cached (c : ImageCache) (fs fs2 : FS)
    (path : String) (size : Option (Nat × Nat)) (bmp : Img) (c1 : ImageCache)
    (ops : List Op)
    (h : c.get fs path size = (some bmp, c1))
    (h2 : fs2 path ≠ FileState.absent) :
    ((runOps c1 ops).get fs2 path size).1 = some bmp := by
  obtain ⟨hpath, hthumb, o, horig⟩ := get_some_facts c fs path size bmp c1 h
  have hthumb2 := (runOps_mono c1 ops).1 _ _ hthumb
  have horig2 := (runOps_mono c1 ops).2 _ _ horig
  have hl : (runOps c1 ops)._load_orig fs2 path = (some o, runOps c1 ops) :=
    load_orig_cached _ fs2 path o hpath h2 horig2
  unfold ImageCache.get
  simp only [hl, hthumb2]

/-- Witness for C1: `a.png` is requested once at 220×220; its contents
then change on disk and an interleaved request for `b.png` happens; the
repeated request still returns the first bitmap, not the new contents. -/
theorem C1_witness :
    ((runOps cachePre [opB]).get fsSmallChanged "a.png" (some (220, 220))).1 =
      some imgSmall :=
  C1_repeated_get_is_cached ImageCache.init fsSmall fsSmallChanged "a.png"
    (some (220, 220)) imgSmall cachePre [opB] (by decide) (by decide)

/-! ### Arithmetic of `Image.thumbnail` (claims C2 and C3) -/

/-- `round_aspect` never exceeds an integer bound that dominates its
argument (and is at least 1). -/
theorem round_aspect_le (q : ℚ) (key : Nat → ℚ) (n : Nat) (hn : 1 ≤ n)
    (hq : q ≤ n) : round_aspect q key ≤ n := by
  unfold round_aspect
  have hceil : Nat.ceil q ≤ n := Nat.ceil_le.mpr hq
  have hfloor : Nat.floor q ≤ n := le_trans (Nat.floor_le_ceil q) hceil
  refine max_le ?_ hn
  split
  · exact hfloor
  · exact hceil

/-- `round_aspect` lands within 1 of its (positive) argument: the choice
between floor and ceil, and the clamp to 1, never move further than one
unit away. -/
theorem round_aspect_close (q : ℚ) (hq : 0 < q) (key : Nat → ℚ) :
    |(round_aspect q key : ℚ) - q| ≤ 1 := by
  unfold round_aspect
  split
  · by_cases h0 : Nat.floor q = 0
    · rw [h0]
      have hq1 : q < 1 := Nat.floor_eq_zero.mp h0
      have hmax : max 0 1 = 1 := rfl
      rw [hmax, abs_le]
      constructor
      · push_cast
        linarith
      · push_cast
        linarith
    · rw [max_eq_left (Nat.one_le_iff_ne_zero.mpr h0), abs_le]
      have hfl : (Nat.floor q : ℚ) ≤ q := Nat.floor_le (le_of_lt hq)
      have hfu : q < (Nat.floor q : ℚ) + 1 := Nat.lt_floor_add_one q
      constructor
      · linarith
      · linarith
  · rw [max_eq_left (Nat.ceil_pos.mpr hq), abs_le]
    have hcl : q ≤ (Nat.ceil q : ℚ) := Nat.le_ceil q
    have hcu : (Nat.ceil q : ℚ) < q + 1 := Nat.ceil_lt_add_one (le_of_lt hq)
    constructor
    · linarith
    · linarith

/-- Full characterisation of `Image.thumbnail` on positive dimensions and
a positive target box: either the image already fits the box and is
returned unchanged, or it exceeds the box and the result keeps the pixel
provenance, fits the box, never exceeds the original dimensions, pins at
least one dimension to its target exactly, and preserves the aspect ratio
within rounding (cross-multiplication differs by at most the larger
original dimension). -/
theorem thumbnail_spec (im : Img) (sx sy : Nat)
    (hw : 0 < im.width) (hh : 0 < im.height) (hx : 0 < sx) (hy : 0 < sy) :
    (im.width ≤ sx ∧ im.height ≤ sy ∧ im.thumbnail (sx, sy) = im) ∨
    (¬(im.width ≤ sx ∧ im.height ≤ sy) ∧
      (im.thumbnail (sx, sy)).data = im.data ∧
      (im.thumbnail (sx, sy)).width ≤ sx ∧
      (im.thumbnail (sx, sy)).height ≤ sy ∧
      (im.thumbnail (sx, sy)).width ≤ im.width ∧
      (im.thumbnail (sx, sy)).height ≤ im.height ∧
      ((im.thumbnail (sx, sy)).width = sx ∨ (im.thumbnail (sx, sy)).height = sy) ∧
      |((im.thumbnail (sx, sy)).width : ℚ) * im.height -
          ((im.thumbnail (sx, sy)).height : ℚ) * im.width| ≤
        (max im.width im.height : ℚ)) := by
  by_cases hearly : im.width ≤ sx ∧ im.height ≤ sy
  · left
    refine ⟨hearly.1, hearly.2, ?_⟩
    unfold Img.thumbnail
    rw [if_pos ⟨hearly.1, hearly.2⟩]
  · right
    refine ⟨hearly, ?_⟩
    have hcond : ¬((sx, sy).1 ≥ im.width ∧ (sx, sy).2 ≥ im.height) := hearly
    have hwQ : (0 : ℚ) < im.width := by exact_mod_cast hw
    have hhQ : (0 : ℚ) < im.height := by exact_mod_cast hh
    have hxQ : (0 : ℚ) < sx := by exact_mod_cast hx
    have hyQ : (0 : ℚ) < sy := by exact_mod_cast hy
    have hmaxw : (im.width : ℚ) ≤ (max im.width im.height : ℚ) := by
      exact_mod_cast Nat.cast_le.mpr (le_max_left im.width im.height)
    have hmaxh : (im.height : ℚ) ≤ (max im.width im.height : ℚ) := by
      exact_mod_cast Nat.cast_le.mpr (le_max_right im.width im.height)
    unfold Img.thumbnail
    rw [if_neg hcond]
    by_cases hbr : ((sx, sy).1 : ℚ) / ((sx, sy).2 : ℚ) ≥ (im.width : ℚ) / (im.height : ℚ)
    · -- height-constrained branch: result is (round_aspect (sy·aspect), sy)
      rw [if_pos hbr]
      have hcross : (im.width : ℚ) * sy ≤ (sx : ℚ) * im.height :=
        (div_le_div_iff₀ hhQ hyQ).mp hbr
      have hsylt : sy < im.height := by
        by_contra hge
        push_neg at hge
        have h1 : (im.height : ℚ) ≤ (sy : ℚ) := by exact_mod_cast hge
        have h2 : (im.width : ℚ) * im.height ≤ (im.width : ℚ) * sy :=
          mul_le_mul_of_nonneg_left h1 (le_of_lt hwQ)
        have h3 : (im.width : ℚ) * im.height ≤ (sx : ℚ) * im.height := le_trans h2 hcross
        have h4 : (im.width : ℚ) ≤ (sx : ℚ) := le_of_mul_le_mul_right h3 hhQ
        exact hearly ⟨by exact_mod_cast h4, hge⟩
      set q : ℚ := ((sx, sy).2 : ℚ) * ((im.width : ℚ) / (im.height : ℚ)) with hq_def
      have hq_pos : 0 < q := by
        rw [hq_def]
        positivity
      have hq_mul : q * im.height = (sy : ℚ) * im.width := by
        rw [hq_def]
        field_simp
      have hq_le_sx : q ≤ (sx : ℚ) := by
        rw [hq_def, ← mul_div_assoc, div_le_iff₀ hhQ]
        calc ((sx, sy).2 : ℚ) * im.width = (im.width : ℚ) * sy := by push_cast; ring
          _ ≤ (sx : ℚ) * im.height := hcross
      have hq_le_w : q ≤ (im.width : ℚ) := by
        rw [hq_def]
        have h1 : ((sx, sy).2 : ℚ) ≤ (im.height : ℚ) := by
          have : (sy : ℚ) ≤ (im.height : ℚ) := by exact_mod_cast le_of_lt hsylt
          exact_mod_cast this
        calc ((sx, sy).2 : ℚ) * ((im.width : ℚ) / im.height)
            ≤ (im.height : ℚ) * ((im.width : ℚ) / im.height) :=
              mul_le_mul_of_nonneg_right h1 (by positivity)
          _ = (im.width : ℚ) := by field_simp
      set r := round_aspect q (fun n => |(im.width : ℚ) / (im.height : ℚ) -
        (n : ℚ) / ((sx, sy).2 : ℚ)|) with hr_def
      have hr_close : |(r : ℚ) - q| ≤ 1 := round_aspect_close q hq_pos _
      have hr_le_sx : r ≤ sx := round_aspect_le q _ sx hx hq_le_sx
      have hr_le_w : r ≤ im.width := round_aspect_le q _ im.width hw hq_le_w
      refine ⟨rfl, hr_le_sx, le_refl _, hr_le_w, le_of_lt hsylt, Or.inr rfl, ?_⟩
      have habs : |(r : ℚ) * im.height - ((sx, sy).2 : ℚ) * im.width| =
          |(r : ℚ) - q| * im.height := by
        rw [← hq_mul, ← sub_mul, abs_mul, abs_of_nonneg (le_of_lt hhQ)]
      calc |(r : ℚ) * im.height - ((sx, sy).2 : ℚ) * im.width|
          = |(r : ℚ) - q| * im.height := habs
        _ ≤ 1 * im.height := mul_le_mul_of_nonneg_right hr_close (le_of_lt hhQ)
        _ = (im.height : ℚ) := one_mul _
        _ ≤ (max im.width im.height : ℚ) := hmaxh
    · -- width-constrained branch: result is (sx, round_aspect (sx/aspect))
      rw [if_neg hbr]
      push_neg at hbr
      have hcross : (sx : ℚ) * im.height < (im.width : ℚ) * sy :=
        (div_lt_div_iff₀ hyQ hhQ).mp hbr
      have hsxlt : sx < im.width := by
        by_contra hge
        push_neg at hge
        have h1 : (im.width : ℚ) ≤ (sx : ℚ) := by exact_mod_cast hge
        have h2 : (im.width : ℚ) * im.height ≤ (sx : ℚ) * im.height :=
          mul_le_mul_of_nonneg_right h1 (le_of_lt hhQ)
        have h3 : (im.width : ℚ) * im.height < (im.width : ℚ) * sy :=
          lt_of_le_of_lt h2 hcross
        have h4 : (im.height : ℚ) < (sy : ℚ) := lt_of_mul_lt_mul_left h3 (le_of_lt hwQ)
        exact hearly ⟨hge, by exact_mod_cast le_of_lt h4⟩
      set p : ℚ := ((sx, sy).1 : ℚ) / ((im.width : ℚ) / (im.height : ℚ)) with hp_def
      have hp_eq : p = (sx : ℚ) * im.height / im.width := by
        rw [hp_def]
        field_simp
      have hp_pos : 0 < p := by
        rw [hp_eq]
        positivity
      have hp_mul : p * im.width = (sx : ℚ) * im.height := by
        rw [hp_eq]
        field_simp
      have hp_le_sy : p ≤ (sy : ℚ) := by
        rw [hp_eq, div_le_iff₀ hwQ]
        calc (sx : ℚ) * im.height ≤ (im.width : ℚ) * sy := le_of_lt hcross
          _ = (sy : ℚ) * im.width := by ring
      have hp_le_h : p ≤ (im.height : ℚ) := by
        rw [hp_eq, div_le_iff₀ hwQ]
        have h1 : (sx : ℚ) ≤ (im.width : ℚ) := by exact_mod_cast le_of_lt hsxlt
        calc (sx : ℚ) * im.height ≤ (im.width : ℚ) * im.height :=
              mul_le_mul_of_nonneg_right h1 (le_of_lt hhQ)
          _ = (im.height : ℚ) * im.width := by ring
      set r := round_aspect p (fun n => if n = 0 then 0 else
        |(im.width : ℚ) / (im.height : ℚ) - ((sx, sy).1 : ℚ) / (n : ℚ)|) with hr_def
      have hr_close : |(r : ℚ) - p| ≤ 1 := round_aspect_close p hp_pos _
      have hr_le_sy : r ≤ sy := round_aspect_le p _ sy hy hp_le_sy
      have hr_le_h : r ≤ im.height := round_aspect_le p _ im.height hh hp_le_h
      refine ⟨rfl, le_refl _, hr_le_sy, le_of_lt hsxlt, hr_le_h, Or.inl rfl, ?_⟩
      have habs : |((sx, sy).1 : ℚ) * im.height - (r : ℚ) * im.width| =
          |(p : ℚ) - r| * im.width := by
        rw [← hp_mul, ← sub_mul, abs_mul, abs_of_nonneg (le_of_lt hwQ)]
      calc |((sx, sy).1 : ℚ) * im.height - (r : ℚ) * im.width|
          = |(p : ℚ) - r| * im.width := habs
        _ ≤ 1 * im.width := mul_le_mul_of_nonneg_right (by rwa [abs_sub_comm]) (le_of_lt hwQ)
        _ = (im.width : ℚ) := one_mul _
        _ ≤ (max im.width im.height : ℚ) := hmaxw

/-- Concrete evaluation: thumbnailing the 440×220 image into the 220×220
box yields 220×110. -/
theorem thumbnail_wide_eval : Img.thumbnail imgWide (220, 220) = imgWideThumb := by
  unfold imgWide imgWideThumb Img.thumbnail round_aspect
  norm_num

/-- Concrete evaluation: one 220×220 request for `w.png` on a fresh cache
returns the 220×110 bitmap and reaches `cacheWide`. -/
theorem get_wide_eval :
    ImageCache.init.get fsWide "w.png" (some (220, 220)) =
      (some imgWideThumb, cacheWide) := by
  simp [ImageCache.get, ImageCache._load_orig, ImageCache.init, dlookup, fsWide,
    applySize, thumbnail_wide_eval, cacheWide]

/-! ### Claims C2 and C3 -/

/-- **C2 counterexample.** The claim asserts that for *every* successfully
decoded image and every positive target size the returned bitmap's longer
dimension equals the corresponding target box dimension.  A 100×100 image
requested at 220×220 is returned unchanged (`Image.thumbnail` never
enlarges): its longer dimension is 100, not 220. -/
theorem C2_counterexample :
    (ImageCache.init.get fsSmall "a.png" (some (220, 220))).1 = some imgSmall ∧
      max imgSmall.width imgSmall.height = 100 ∧ (100 : Nat) ≠ 220 :=
  ⟨by decide, by decide, by decide⟩

/-- **C2 (amended).** For every successfully decoded original with
positive dimensions and every positive target size, *provided the original
exceeds the target box in at least one dimension*, the bitmap returned by
`ImageCache.get(path, size)` fits the box, has *at least one* dimension
exactly equal to its corresponding target box dimension — for a square box
(every call in this application uses the square 220×220 cell box) that
dimension is the longer one — has its other dimension at most the
corresponding target dimension, and preserves the original width-to-height
aspect ratio within rounding. -/
theorem C2_amended_scaling (c : ImageCache) (fs : FS) (path : String)
    (sx sy : Nat) (bmp : Img) (c' : ImageCache) (o : Img)
    (hInv : Inv c)
    (h : c.get fs path (some (sx, sy)) = (some bmp, c'))
    (ho : (c._load_orig fs path).1 = some o)
    (hw : 0 < o.width) (hh : 0 < o.height) (hx : 0 < sx) (hy : 0 < sy)
    (hbig : ¬(o.width ≤ sx ∧ o.height ≤ sy)) :
    bmp.width ≤ sx ∧ bmp.height ≤ sy ∧ (bmp.width = sx ∨ bmp.height = sy) ∧
      (sx = sy → max bmp.width bmp.height = sx) ∧
      |(bmp.width : ℚ) * o.height - (bmp.height : ℚ) * o.width| ≤
        (max o.width o.height : ℚ) := by
  obtain ⟨o2, ho2, hbmp⟩ := get_bmp_eq c fs path (some (sx, sy)) bmp c' hInv h
  rw [ho] at ho2
  obtain rfl : o = o2 := Option.some_inj.mp ho2
  have hbmp2 : bmp = o.thumbnail (sx, sy) := hbmp
  subst hbmp2
  rcases thumbnail_spec o sx sy hw hh hx hy with
    ⟨h1, h2, _⟩ | ⟨_, _, hwle, hhle, _, _, hex, hasp⟩
  · exact absurd ⟨h1, h2⟩ hbig
  · refine ⟨hwle, hhle, hex, ?_, hasp⟩
    intro hsq
    rcases hex with he | he <;> omega

/-- Witness for C2 (amended) at the 440×220 image and the 220×220 box:
the result is 220×110 — it fits, its longer dimension is exactly 220, and
`|220·220 − 110·440| = 0 ≤ 440`. -/
theorem C2_witness :
    imgWideThumb.width ≤ 220 ∧ imgWideThumb.height ≤ 220 ∧
      (imgWideThumb.width = 220 ∨ imgWideThumb.height = 220) ∧
      ((220 : Nat) = 220 → max imgWideThumb.width imgWideThumb.height = 220) ∧
      |(imgWideThumb.width : ℚ) * imgWide.height -
          (imgWideThumb.height : ℚ) * imgWide.width| ≤
        (max imgWide.width imgWide.height : ℚ) :=
  C2_amended_scaling ImageCache.init fsWide "w.png" 220 220 imgWideThumb cacheWide
    imgWide Inv_init get_wide_eval (by decide) (by decide) (by decide) (by decide)
    (by decide) (by decide)

/-- **C3 counterexample.** The claim asserts that the scaled copy "fills
the remainder of the box along the shorter dimension with transparent
padding".  If it did, the returned bitmap would span the full box (220
pixels tall for the 220×220 box).  The 440×220 image requested at 220×220
comes back as a 220×110 bitmap: the bitmap does not contain the remainder
of the box at all — the blank area is produced by the fixed-size cell
container centring the label, not by padding in the returned bitmap. -/
theorem C3_counterexample :
    (ImageCache.init.get fsWide "w.png" (some (220, 220))).1 = some imgWideThumb ∧
      imgWideThumb.height = 110 ∧ (110 : Nat) ≠ 220 := by
  refine ⟨?_, by decide, by decide⟩
  rw [get_wide_eval]

/-- **C3 (amended).** For every successfully decoded original with
positive dimensions and every positive target size, the scaling performed
by `ImageCache.get(path, size)` only ever shrinks the copy, never enlarges
it, fits it entirely within the target box with no cropping and no
distortion (aspect preserved within rounding, pixels taken from the
decoded original); the remainder of the box is *not* part of the returned
bitmap — the blank appears because the fixed 220×220 cell container
centres the label showing the bitmap. -/
theorem C3_amended_contain (c : ImageCache) (fs : FS) (path : String)
    (sx sy : Nat) (bmp : Img) (c' : ImageCache) (o : Img)
    (hInv : Inv c)
    (h : c.get fs path (some (sx, sy)) = (some bmp, c'))
    (ho : (c._load_orig fs path).1 = some o)
    (hw : 0 < o.width) (hh : 0 < o.height) (hx : 0 < sx) (hy : 0 < sy) :
    bmp.width ≤ o.width ∧ bmp.height ≤ o.height ∧
      bmp.width ≤ sx ∧ bmp.height ≤ sy ∧ bmp.data = o.data ∧
      |(bmp.width : ℚ) * o.height - (bmp.height : ℚ) * o.width| ≤
        (max o.width o.height : ℚ) := by
  obtain ⟨o2, ho2, hbmp⟩ := get_bmp_eq c fs path (some (sx, sy)) bmp c' hInv h
  rw [ho] at ho2
  obtain rfl : o = o2 := Option.some_inj.mp ho2
  have hbmp2 : bmp = o.thumbnail (sx, sy) := hbmp
  subst hbmp2
  rcases thumbnail_spec o sx sy hw hh hx hy with
    ⟨h1, h2, heq⟩ | ⟨_, hdata, hwle, hhle, hwo, hho, _, hasp⟩
  · rw [heq]
    have hzero : (o.width : ℚ) * o.height - (o.height : ℚ) * o.width = 0 := by ring
    refine ⟨le_refl _, le_refl _, h1, h2, rfl, ?_⟩
    rw [hzero, abs_zero]
    positivity
  · exact ⟨hwo, hho, hwle, hhle, hdata, hasp⟩

/-- Witness for C3 (amended) at the 440×220 image and the 220×220 box:
220×110 shrinks both dimensions, fits the box, keeps the original pixels
and the exact aspect ratio. -/
theorem C3_witness :
    imgWideThumb.width ≤ imgWide.width ∧ imgWideThumb.height ≤ imgWide.height ∧
      imgWideThumb.width ≤ 220 ∧ imgWideThumb.height ≤ 220 ∧
      imgWideThumb.data = imgWide.data ∧
      |(imgWideThumb.width : ℚ) * imgWide.height -
          (imgWideThumb.height : ℚ) * imgWide.width| ≤
        (max imgWide.width imgWide.height : ℚ) :=
  C3_amended_contain ImageCache.init fsWide "w.png" 220 220 imgWideThumb cacheWide
    imgWide Inv_init get_wide_eval (by decide) (by decide) (by decide) (by decide)
    (by decide)

/-! ### Dictionary and coercion lemmas for the options layer -/

/-- The coercion loop fails exactly when some item fails to coerce. -/
theorem coerceItems_eq_none (l : List JVal) :
    coerceItems l = none ↔ ∃ a ∈ l, coerceItem a = none := by
  induction l with
  | nil => simp [coerceItems]
  | cons x xs ih =>
    unfold coerceItems
    cases hfx : coerceItem x with
    | none =>
      constructor
      · intro _
        exact ⟨x, List.mem_cons_self x xs, hfx⟩
      · intro _
        rfl
    | some o =>
      cases hxs : coerceItems xs with
      | none =>
        constructor
        · intro _
          obtain ⟨a, ha, hfa⟩ := ih.mp hxs
          exact ⟨a, List.mem_cons_of_mem x ha, hfa⟩
        · intro _
          rfl
      | some os =>
        constructor
        · intro h
          exact Option.noConfusion h
        · rintro ⟨a, ha, hfa⟩
          rcases List.mem_cons.mp ha with rfl | ha2
          · rw [hfx] at hfa
            exact Option.noConfusion hfa
          · rw [ih.mpr ⟨a, ha2, hfa⟩] at hxs
            exact Option.noConfusion hxs

/-- Overwriting in place finds the new value (case where the key was
present). -/
theorem dlookup_map_overwrite {α β : Type} [DecidableEq α] (k : α) (v : β) :
    ∀ d : List (α × β), d.any (fun p => p.1 = k) = true →
      dlookup k (d.map (fun p => if p.1 = k then (k, v) else p)) = some v := by
  intro d
  induction d with
  | nil => simp
  | cons p rest ih =>
    obtain ⟨a, b⟩ := p
    intro hany
    rw [List.map_cons]
    by_cases hak : a = k
    · rw [if_pos hak, dlookup_cons, if_pos rfl]
    · rw [if_neg hak, dlookup_cons, if_neg hak]
      refine ih ?_
      simp only [List.any_cons, decide_eq_false hak, Bool.false_or] at hany
      exact hany

/-- Appending a fresh binding finds the new value (case where the key was
absent). -/
theorem dlookup_append_fresh {α β : Type} [DecidableEq α] (k : α) (v : β) :
    ∀ d : List (α × β), d.any (fun p => p.1 = k) = false →
      dlookup k (d ++ [(k, v)]) = some v := by
  intro d
  induction d with
  | nil => simp [dlookup]
  | cons p rest ih =>
    obtain ⟨a, b⟩ := p
    intro hany
    simp only [List.any_cons, Bool.or_eq_false_iff, decide_eq_false_iff_not] at hany
    rw [List.cons_append, dlookup_cons, if_neg hany.1]
    exact ih (by simpa using hany.2)

/-- `d[k] = v` makes `k` look up to `v`. -/
theorem dlookup_dictInsert_self {α β : Type} [DecidableEq α]
    (d : List (α × β)) (k : α) (v : β) :
    dlookup k (dictInsert d k v) = some v := by
  unfold dictInsert
  split
  next h => exact dlookup_map_overwrite k v d h
  next h => exact dlookup_append_fresh k v d (Bool.eq_false_iff.mpr h)

/-- In-place overwriting of another key does not affect a lookup. -/
theorem dlookup_map_ne {α β : Type} [DecidableEq α] (k k2 : α) (v : β)
    (hne : k2 ≠ k) :
    ∀ d : List (α × β),
      dlookup k (d.map (fun p => if p.1 = k2 then (k2, v) else p)) = dlookup k d := by
  intro d
  induction d with
  | nil => rfl
  | cons p rest ih =>
    obtain ⟨a, b⟩ := p
    rw [List.map_cons]
    by_cases hak2 : a = k2
    · rw [if_pos hak2, dlookup_cons, dlookup_cons, if_neg hne, if_neg (hak2 ▸ hne)]
      exact ih
    · rw [if_neg hak2, dlookup_cons, dlookup_cons]
      by_cases hak : a = k
      · rw [if_pos hak, if_pos hak]
      · rw [if_neg hak, if_neg hak]
        exact ih

/-- Appending a binding for another key does not affect a lookup. -/
theorem dlookup_append_ne {α β : Type} [DecidableEq α] (k k2 : α) (v : β)
    (hne : k2 ≠ k) :
    ∀ d : List (α × β), dlookup k (d ++ [(k2, v)]) = dlookup k d := by
  intro d
  induction d with
  | nil => simp [dlookup, if_neg hne]
  | cons p rest ih =>
    obtain ⟨a, b⟩ := p
    rw [List.cons_append, dlookup_cons, dlookup_cons]
    by_cases hak : a = k
    · rw [if_pos hak, if_pos hak]
    · rw [if_neg hak, if_neg hak]
      exact ih

/-- `d[k2] = v` does not affect the lookup of a different key. -/
theorem dlookup_dictInsert_ne {α β : Type} [DecidableEq α]
    (d : List (α × β)) (k k2 : α) (v : β) (hne : k2 ≠ k) :
    dlookup k (dictInsert d k2 v) = dlookup k d := by
  unfold dictInsert
  split
  · exact dlookup_map_ne k k2 v hne d
  · exact dlookup_append_ne k k2 v hne d

/-- Folding `dict` insertion over an option list: a name looks up to the
last option with that name, falling back to the starting dictionary. -/
theorem dlookup_buildIndex_gen (options : List OptionRec) :
    ∀ (d : List (String × OptionRec)) (n : String),
      dlookup n (options.foldl (fun d o => dictInsert d o.name o) d) =
        ((options.filter (fun o => o.name == n)).getLast?).or (dlookup n d) := by
  induction options with
  | nil =>
    intro d n
    simp [List.foldl_nil, List.filter_nil]
  | cons o rest ih =>
    intro d n
    rw [List.foldl_cons, ih (dictInsert d o.name o) n, List.filter_cons]
    by_cases hon : o.name = n
    · rw [if_pos (by simpa using hon)]
      cases hrest : (rest.filter (fun o => o.name == n)).getLast? with
      | some z => rw [List.getLast?_cons, hrest]; rfl
      | none =>
        rw [List.getLast?_cons, hrest]
        subst hon
        rw [dlookup_dictInsert_self]
        rfl
    · rw [if_neg (by simpa using hon), dlookup_dictInsert_ne d n o.name o hon]

/-- The name→option index built by `load_options_file` maps each name to
the last-loaded option with that name. -/
theorem dlookup_buildIndex (options : List OptionRec) (n : String) :
    dlookup n (buildIndex options) =
      (options.filter (fun o => o.name == n)).getLast? := by
  unfold buildIndex
  rw [dlookup_buildIndex_gen options [] n]
  exact Option.or_none

/-- Picking a cell out of the per-cell update loop: the result at index
`i` is the update of the input cell at index `i`, run against the cache
state the loop happened to thread to it. -/
theorem updateCellsOnLoad_getElem (fs : FS) (n2o : List (String × OptionRec))
    (names : List String) :
    ∀ (cells : List Cell) (c : ImageCache) (i : Nat) (cell : Cell),
      cells[i]? = some cell →
      ∃ c2, ((updateCellsOnLoad fs n2o names cells c).1)[i]? =
        some (updateCellOnLoad fs n2o names cell c2).1 := by
  intro cells
  induction cells with
  | nil =>
    intro c i cell h
    simp at h
  | cons hd tl ih =>
    intro c i cell h
    cases i with
    | zero =>
      rw [List.getElem?_cons_zero] at h
      obtain rfl := Option.some_inj.mp h
      exact ⟨c, by rw [updateCellsOnLoad, List.getElem?_cons_zero]⟩
    | succ j =>
      rw [List.getElem?_cons_succ] at h
      obtain ⟨c2, hc2⟩ := ih (updateCellOnLoad fs n2o names hd c).2 j cell h
      refine ⟨c2, ?_⟩
      rw [updateCellsOnLoad, List.getElem?_cons_succ]
      exact hc2

/-- Unfolding `load_options_file` on a parsed configuration. -/
theorem load_options_file_parsed (raw : JVal) (fs : FS) (path : String)
    (app : AppState) (c : ImageCache) :
    load_options_file (CfgFile.parsed raw) fs path app c =
      match coerceAll raw with
      | none => (app, c, some LoadError.invalid_format)
      | some options =>
        let option_names := options.map (fun o => o.name)
        let n2o := buildIndex options
        let r := updateCellsOnLoad fs n2o option_names app.cells c
        ({ options := options, option_names := option_names,
           name_to_option := n2o, cells := r.1,
           status_var := "已載入選項：" ++ basename path }, r.2, none) := rfl

/-! ### Claims C6, C7, C8, C9 -/

/-- **C6.** For every configuration input on which loading fails — an
unreadable file, a JSON parse error, or a schema-coercion error on some
element — `load_options_file` leaves the previously loaded option set, the
name→option index, and all cell selections unchanged (the whole
application state and the image cache are returned untouched) and reports
a user-visible error dialog; and on success the option set is replaced
wholesale by the coerced list (all-or-nothing) with no error reported. -/
theorem C6_failed_load_changes_nothing :
    (∀ (cfg : CfgFile) (fs : FS) (path : String) (app : AppState) (c : ImageCache),
      (cfg = CfgFile.unreadable ∨ cfg = CfgFile.unparsable ∨
        ∃ raw, cfg = CfgFile.parsed raw ∧ coerceAll raw = none) →
      ∃ e, load_options_file cfg fs path app c = (app, c, some e)) ∧
    (∀ (raw : JVal) (options : List OptionRec) (fs : FS) (path : String)
        (app : AppState) (c : ImageCache),
      coerceAll raw = some options →
      ((load_options_file (CfgFile.parsed raw) fs path app c).1).options = options ∧
      (load_options_file (CfgFile.parsed raw) fs path app c).2.2 = none) := by
  constructor
  · intro cfg fs path app c h
    rcases h with rfl | rfl | ⟨raw, rfl, hco⟩
    · exact ⟨LoadError.read_failed, rfl⟩
    · exact ⟨LoadError.read_failed, rfl⟩
    · refine ⟨LoadError.invalid_format, ?_⟩
      rw [load_options_file_parsed, hco]
  · intro raw options fs path app c hco
    rw [load_options_file_parsed, hco]
    exact ⟨rfl, rfl⟩

/-- Witness for C6: an unreadable file, and a parsed file whose element
has a non-coercible id, both leave a populated state untouched; a good
file replaces the option set. -/
theorem C6_witness :
    (∃ e, load_options_file CfgFile.unreadable fsNone "options.json" app9
        ImageCache.init = (app9, ImageCache.init, some e)) ∧
    (∃ e, load_options_file (CfgFile.parsed (JVal.jarr [JVal.jnull])) fsNone
        "options.json" app9 ImageCache.init = (app9, ImageCache.init, some e)) ∧
    ((load_options_file (CfgFile.parsed (JVal.jarr itemsDup)) fsNone "options.json"
        app0 ImageCache.init).1).options = optsDup :=
  ⟨C6_failed_load_changes_nothing.1 CfgFile.unreadable fsNone "options.json" app9
      ImageCache.init (Or.inl rfl),
   C6_failed_load_changes_nothing.1 (CfgFile.parsed (JVal.jarr [JVal.jnull])) fsNone
      "options.json" app9 ImageCache.init
      (Or.inr (Or.inr ⟨JVal.jarr [JVal.jnull], rfl, by decide⟩)),
   (C6_failed_load_changes_nothing.2 (JVal.jarr itemsDup) optsDup fsNone
      "options.json" app0 ImageCache.init (by decide)).1⟩

/-- **C7 counterexample.** The claim asserts that an element with a
missing `name` field aborts the load the same way as an unreadable file.
It does not: `str(item.get("name"))` turns the missing field into the
string `"None"` and the load succeeds, replacing the option set. -/
theorem C7_counterexample :
    (load_options_file cfgMissingName fsNone "options.json" app0
        ImageCache.init).2.2 = none ∧
    ((load_options_file cfgMissingName fsNone "options.json" app0
        ImageCache.init).1).options = [⟨1, "None", "x.png"⟩] :=
  ⟨by decide, by decide⟩

/-- **C7 (amended).** A configuration whose JSON parses but contains an
element failing schema coercion — an element that is not an object, or
whose `id` is missing or not integer-coercible — aborts the load
atomically (state and cache untouched) with an error dialog.  A missing
`name` or `image` field does *not* abort: `str` never raises, so the
missing field is coerced to the string `"None"` and the element loads. -/
theorem C7_id_failure_aborts_str_never_fails :
    (∀ (items : List JVal) (fs : FS) (path : String) (app : AppState)
        (c : ImageCache),
      (∃ it ∈ items, coerceItem it = none) →
      load_options_file (CfgFile.parsed (JVal.jarr items)) fs path app c =
        (app, c, some LoadError.invalid_format)) ∧
    (∀ (fields : List (String × JVal)) (n : Int),
      pyInt (jget fields "id") = some n →
      dlookup "name" fields = none → dlookup "image" fields = none →
      coerceItem (JVal.jobj fields) = some ⟨n, "None", "None"⟩) := by
  constructor
  · intro items fs path app c h
    have hco : coerceAll (JVal.jarr items) = none :=
      (coerceItems_eq_none items).mpr h
    rw [load_options_file_parsed, hco]
  · intro fields n hid hname himage
    show (match pyInt (jget fields "id") with
      | some n => some (⟨n, pyStr (jget fields "name"), pyStr (jget fields "image")⟩ : OptionRec)
      | none => none) = some ⟨n, "None", "None"⟩
    rw [hid]
    unfold jget
    rw [hname, himage]
    rfl

/-- Witness for C7 (amended): a non-object element aborts a load over a
populated state; an object with only an integer id coerces with both
strings defaulted to `"None"`. -/
theorem C7_witness :
    load_options_file (CfgFile.parsed (JVal.jarr [JVal.jnull])) fsNone "o.json"
        app0 ImageCache.init = (app0, ImageCache.init, some LoadError.invalid_format) ∧
    coerceItem (JVal.jobj [("id", JVal.jint 5)]) = some ⟨5, "None", "None"⟩ :=
  ⟨C7_id_failure_aborts_str_never_fails.1 [JVal.jnull] fsNone "o.json" app0
      ImageCache.init ⟨JVal.jnull, List.mem_singleton.mpr rfl, rfl⟩,
   C7_id_failure_aborts_str_never_fails.2 [("id", JVal.jint 5)] 5 rfl rfl rfl⟩

/-- **C8.** After a successful load, the name→option index maps every name
to the *last-loaded* option with that name (the dict comprehension
`{o.name: o for o in options}` overwrites on duplicates), so every cell
lookup for a duplicated name resolves to the last-defined option; no error
is reported. -/
theorem C8_duplicate_names_last_wins (items : List JVal)
    (options : List OptionRec) (fs : FS) (path : String) (app : AppState)
    (c : ImageCache) (hco : coerceAll (JVal.jarr items) = some options) :
    (load_options_file (CfgFile.parsed (JVal.jarr items)) fs path app c).2.2 = none ∧
    ∀ n, dlookup n
        (((load_options_file (CfgFile.parsed (JVal.jarr items)) fs path app c).1).name_to_option) =
      (options.filter (fun o => o.name == n)).getLast? := by
  rw [load_options_file_parsed, hco]
  exact ⟨rfl, fun n => dlookup_buildIndex options n⟩

/-- Witness for C8: two options both named `"X"`; the index resolves
`"X"` to the second (last-loaded) one. -/
theorem C8_witness :
    dlookup "X"
        (((load_options_file (CfgFile.parsed (JVal.jarr itemsDup)) fsNone "o.json"
          app0 ImageCache.init).1).name_to_option) = some ⟨2, "X", "b.png"⟩ := by
  have h := (C8_duplicate_names_last_wins itemsDup optsDup fsNone "o.json" app0
    ImageCache.init (by decide)).2 "X"
  rw [h]
  decide

/-- **C9 counterexample.** The claim asserts that after a reload a cell
whose selection became invalid keeps its previously displayed image until
the next explicit selection change.  It does not: `load_options_file`
calls `_refresh_cell_image` on every cell, and with the cleared selection
the lookup misses, so the image is cleared immediately — here from
`some imgA` to `none` in the same load. -/
theorem C9_counterexample :
    ((load_options_file cfg9 fsNone "options.json" app9 ImageCache.init).1).cells =
      [{ name_var := "", image := none, combo_values := ["B"] }] ∧
    app9.cells = [{ name_var := "A", image := some imgA, combo_values := ["A"] }] ∧
    some imgA ≠ (none : Option Img) :=
  ⟨by decide, by decide, by decide⟩

/-- **C9 (amended).** After a successful options (re)load, every cell
whose current selection is no longer a valid option name has its selection
cleared *and* its displayed image refreshed immediately as part of the
same load: provided no option is named `""`, the refresh lookup misses and
the image is cleared right away (the same outcome an explicit
selection-change event would produce), not kept until the next event. -/
theorem C9_invalid_selection_cleared_with_image (items : List JVal)
    (options : List OptionRec) (fs : FS) (path : String) (app : AppState)
    (c : ImageCache) (i : Nat) (cell : Cell)
    (hco : coerceAll (JVal.jarr items) = some options)
    (hcell : app.cells[i]? = some cell)
    (hinv : cell.name_var ∉ options.map (fun o => o.name))
    (hnoempty : dlookup "" (buildIndex options) = none) :
    (((load_options_file (CfgFile.parsed (JVal.jarr items)) fs path app c).1).cells)[i]? =
      some { name_var := "", image := none,
             combo_values := options.map (fun o => o.name) } := by
  rw [load_options_file_parsed, hco]
  obtain ⟨c2, hc2⟩ := updateCellsOnLoad_getElem fs (buildIndex options)
    (options.map (fun o => o.name)) app.cells c i cell hcell
  have hcell_eq : (updateCellOnLoad fs (buildIndex options)
      (options.map (fun o => o.name)) cell c2).1 =
      { name_var := "", image := none,
        combo_values := options.map (fun o => o.name) } := by
    simp only [updateCellOnLoad]
    rw [if_neg hinv]
    simp only [_refresh_cell_image]
    rw [hnoempty]
  rw [hcell_eq] at hc2
  exact hc2

/-- Witness for C9 (amended): the single cell selected `A` against a new
option set `{B}` comes out with empty selection and a cleared image. -/
theorem C9_witness :
    (((load_options_file cfg9 fsNone "options.json" app9 ImageCache.init).1).cells)[0]? =
      some { name_var := "", image := none, combo_values := ["B"] } :=
  C9_invalid_selection_cleared_with_image
    [JVal.jobj [("id", JVal.jint 2), ("name", JVal.jstr "B"), ("image", JVal.jstr "b.png")]]
    [⟨2, "B", "b.png"⟩] fsNone "options.json" app9 ImageCache.init 0
    { name_var := "A", image := some imgA, combo_values := ["A"] }
    (by decide) (by decide) (by decide) (by decide)

end NineTool
